import Mathlib

/-!
Verification development for the dexscreener gateway (src/index.ts).

The embedding models JS strings as lists of Unicode code points
(`JSString := List Nat`), machine time as `Nat` milliseconds, and the
stateful `RateLimiter` class as explicit state passing.  The JS event
loop (needed to analyse interleaved `waitForSlot` callers) is embedded
as a deterministic queue machine whose atomic steps are exactly the
synchronous blocks of the source: run-to-completion between `await`s.
-/

/-- JS strings, as lists of Unicode code points. -/
abbrev JSString := List Nat

/-- Embed a Lean string literal as a `JSString`. -/
def js (s : String) : JSString := s.data.map Char.toNat

/-- ECMA WhiteSpace and LineTerminator code points, as used by
`String.prototype.trim`. -/
def jsWs (c : Nat) : Bool :=
  c = 9 || c = 10 || c = 11 || c = 12 || c = 13 || c = 32 || c = 160 ||
  c = 0x1680 || (0x2000 ≤ c && c ≤ 0x200A) || c = 0x2028 || c = 0x2029 ||
  c = 0x202F || c = 0x205F || c = 0x3000 || c = 0xFEFF

/-- `value.trim()`: drop leading and trailing whitespace. -/
def jsTrim (s : JSString) : JSString :=
  ((s.dropWhile jsWs).reverse.dropWhile jsWs).reverse

/-- `type RateLimiterConfig = { limit: number; intervalMs?: number }`. -/
structure RateLimiterConfig where
  limit : Nat
  intervalMs : Option Nat

/-- The `RateLimiter` class: fixed `limit` and `interval`, plus the
mutable `timestamps` array (oldest first). -/
structure RateLimiter where
  limit : Nat
  interval : Nat
  timestamps : List Nat
deriving DecidableEq, Repr

/-- The `RateLimiter` constructor: `intervalMs` defaults to 60000.
It performs no validation of `limit`. -/
def mkRateLimiter (cfg : RateLimiterConfig) : RateLimiter :=
  { limit := cfg.limit, interval := cfg.intervalMs.getD 60000, timestamps := [] }

/-- The prune step of `waitForSlot`:
`this.timestamps.filter((ts) => now - ts < this.interval)`. -/
def pruneTs (interval : Nat) (ts : List Nat) (now : Nat) : List Nat :=
  ts.filter (fun x => now - x < interval)

/-- Number of recorded timestamps lying within the trailing window of
length `interval` ending at `t`. -/
def countWindow (interval : Nat) (ts : List Nat) (t : Nat) : Nat :=
  (ts.filter (fun x => t - x < interval)).length

/-- `waitForSlot` for a single caller running with no interleaving
(the next call starts only after this one returned).  Returns the new
limiter and the admission time (the value of the second `Date.now()`,
i.e. the moment `push` runs).  When the post-prune count is at or above
`limit` the caller sleeps for `delay = interval - (now - oldest)` and
then pushes WITHOUT re-running the prune-and-check.  The `[]` sub-case
mirrors `this.timestamps[0]` being `undefined` for `limit = 0`: the
computed delay is `NaN`, which `setTimeout` treats as 0. -/
def waitForSlot (rl : RateLimiter) (now : Nat) : RateLimiter × Nat :=
  let pruned := pruneTs rl.interval rl.timestamps now
  if rl.limit ≤ pruned.length then
    match pruned with
    | [] => ({ rl with timestamps := pruned ++ [now] }, now)
    | oldest :: _ =>
      let wake := now + (rl.interval - (now - oldest))
      ({ rl with timestamps := pruned ++ [wake] }, wake)
  else
    ({ rl with timestamps := pruned ++ [now] }, now)

/-- A strictly sequential run of `waitForSlot`: the i-th call is issued
`deltas[i]` ms after the previous call was admitted (so calls never
overlap).  Returns the final limiter and the log of admissions, each
paired with the in-window count of recorded timestamps at the moment of
that admission. -/
def seqRun (rl : RateLimiter) (now : Nat) : List Nat → RateLimiter × List (Nat × Nat)
  | [] => (rl, [])
  | d :: ds =>
    let t := now + d
    let step := waitForSlot rl t
    let rest := seqRun step.1 step.2 ds
    (rest.1, (step.2, countWindow rl.interval step.1.timestamps step.2) :: rest.2)

/-! ## The JS event-loop machine for interleaved callers

Each caller of `waitForSlot` executes at most two atomic blocks: the
synchronous prefix up to the `await` (prune, check, possibly schedule a
timer), and, if it slept, the resumption (`push(Date.now())`).  Timers
with the same deadline fire in scheduling order; same-time events run in
arrival order.  `step` executes one atomic block. -/

/-- Pending atomic block of one caller. -/
inductive LTask where
  | start  : LTask
  | resume : LTask
deriving DecidableEq, Repr

/-- Shared limiter state plus the event queue (time-sorted, FIFO among
equal times) and the log of admissions with their in-window counts. -/
structure MState where
  timestamps : List Nat
  queue : List (Nat × LTask)
  admissions : List (Nat × Nat)
deriving DecidableEq, Repr

/-- Insert an event after all events with deadline at most its own
(JS timers: same deadline fires in creation order). -/
def insertEv : List (Nat × LTask) → Nat × LTask → List (Nat × LTask)
  | [], e => [e]
  | f :: rest, e => if f.1 ≤ e.1 then f :: insertEv rest e else e :: f :: rest

/-- One atomic block of the event loop, for a limiter with the given
`limit` and `interval`. -/
def stepM (limit interval : Nat) (s : MState) : MState :=
  match s.queue with
  | [] => s
  | (t, task) :: rest =>
    match task with
    | .start =>
      let pruned := pruneTs interval s.timestamps t
      if limit ≤ pruned.length then
        match pruned with
        | [] => { timestamps := pruned, queue := insertEv rest (t, .resume),
                  admissions := s.admissions }
        | oldest :: _ =>
          { timestamps := pruned,
            queue := insertEv rest (t + (interval - (t - oldest)), .resume),
            admissions := s.admissions }
      else
        { timestamps := pruned ++ [t], queue := rest,
          admissions := s.admissions ++ [(t, countWindow interval (pruned ++ [t]) t)] }
    | .resume =>
      { timestamps := s.timestamps ++ [t], queue := rest,
        admissions := s.admissions ++
          [(t, countWindow interval (s.timestamps ++ [t]) t)] }

/-- Run the event loop for `fuel` atomic blocks. -/
def runM (limit interval : Nat) : Nat → MState → MState
  | 0, s => s
  | fuel + 1, s => runM limit interval fuel (stepM limit interval s)

/-- Five concurrent callers of one limiter with capacity 2 and window
1000 ms: four arrive at t = 0 and one at t = 1. -/
def burstInit : MState :=
  { timestamps := [],
    queue := [(0, .start), (0, .start), (0, .start), (0, .start), (1, .start)],
    admissions := [] }

/-! ## Sliding-window facts -/

/-- Filtering with a weaker predicate keeps at least as many elements. -/
theorem length_filter_mono {α : Type} (l : List α) (p q : α → Bool)
    (h : ∀ x ∈ l, p x = true → q x = true) :
    (l.filter p).length ≤ (l.filter q).length := by
  induction l with
  | nil => simp
  | cons a t ih =>
    have ht := ih (fun x hx hpx => h x (by simp [hx]) hpx)
    cases hpa : p a <;> cases hqa : q a <;> simp [List.filter_cons, hpa, hqa]
    · exact ht
    · exact le_trans ht (Nat.le_succ _)
    · exact absurd (h a (by simp) hpa) (by simp [hqa])
    · exact ht

/-- The in-window count can only shrink as the reference time advances. -/
theorem countWindow_anti_mono (W : Nat) (ts : List Nat) {t now : Nat}
    (h : t ≤ now) : countWindow W ts now ≤ countWindow W ts t := by
  unfold countWindow
  apply length_filter_mono
  intro x _ hx
  simp only [decide_eq_true_eq] at hx ⊢
  omega

/-- One sequential `waitForSlot` call preserves the window invariant:
all recorded timestamps stay at or below the admission time, the
in-window count at the admission time stays at or below `limit`, the
admission time does not precede the call time, and the configuration is
untouched. -/
theorem waitForSlot_step_inv (rl : RateLimiter) (t now : Nat)
    (hl : 0 < rl.limit)
    (hle : ∀ x ∈ rl.timestamps, x ≤ t)
    (hcnt : countWindow rl.interval rl.timestamps t ≤ rl.limit)
    (htn : t ≤ now) :
    (∀ x ∈ (waitForSlot rl now).1.timestamps, x ≤ (waitForSlot rl now).2) ∧
    countWindow rl.interval (waitForSlot rl now).1.timestamps
      (waitForSlot rl now).2 ≤ rl.limit ∧
    now ≤ (waitForSlot rl now).2 ∧
    (waitForSlot rl now).1.limit = rl.limit ∧
    (waitForSlot rl now).1.interval = rl.interval := by
  have hplen : (pruneTs rl.interval rl.timestamps now).length ≤ rl.limit := by
    have h1 : (pruneTs rl.interval rl.timestamps now).length
        = countWindow rl.interval rl.timestamps now := rfl
    have h2 := countWindow_anti_mono rl.interval rl.timestamps htn
    omega
  have hmem : ∀ x ∈ pruneTs rl.interval rl.timestamps now,
      x ≤ t ∧ now - x < rl.interval := by
    intro x hx
    have := List.mem_filter.mp hx
    exact ⟨hle x this.1, by simpa using this.2⟩
  unfold waitForSlot
  by_cases hfull : rl.limit ≤ (pruneTs rl.interval rl.timestamps now).length
  · rw [if_pos hfull]
    cases hp : pruneTs rl.interval rl.timestamps now with
    | nil => rw [hp] at hfull; simp at hfull; omega
    | cons oldest rest =>
      dsimp only
      have holdest := hmem oldest (by rw [hp]; simp)
      have hW : 0 < rl.interval := by omega
      have hwake : now + (rl.interval - (now - oldest)) = oldest + rl.interval := by
        have := holdest.1
        omega
      constructor
      · intro x hx
        rcases List.mem_append.mp hx with hx | hx
        · have := hmem x (by rw [hp]; exact hx)
          omega
        · simp at hx; omega
      refine ⟨?_, by omega, rfl, rfl⟩
      · -- count at the wake time: the oldest entry has aged out exactly
        unfold countWindow
        rw [List.filter_append, List.length_append]
        have hsing : ((([now + (rl.interval - (now - oldest))]).filter
            (fun x => decide (now + (rl.interval - (now - oldest)) - x < rl.interval))).length) ≤ 1 := by
          simp [List.filter]
          split <;> simp
        have hold : (((oldest :: rest).filter
            (fun x => decide (now + (rl.interval - (now - oldest)) - x < rl.interval))).length) ≤ rest.length := by
          rw [List.filter_cons]
          have hdec : decide (now + (rl.interval - (now - oldest)) - oldest < rl.interval)
              = false := by
            simp only [decide_eq_false_iff_not]
            omega
          simp only [hdec, Bool.false_eq_true, if_false]
          exact List.length_filter_le _ _
        have hrl : (oldest :: rest).length ≤ rl.limit := by rw [hp] at hplen; exact hplen
        simp only [List.length_cons] at hrl
        omega
  · rw [if_neg hfull]
    dsimp only
    push_neg at hfull
    constructor
    · intro x hx
      rcases List.mem_append.mp hx with hx | hx
      · have := hmem x hx
        omega
      · simp at hx; omega
    refine ⟨?_, le_refl now, rfl, rfl⟩
    · unfold countWindow
      rw [List.filter_append, List.length_append]
      have hsing : (([now].filter (fun x => decide (now - x < rl.interval))).length) ≤ 1 := by
        simp [List.filter]
        split <;> simp
      have hle2 : ((pruneTs rl.interval rl.timestamps now).filter
          (fun x => decide (now - x < rl.interval))).length
          ≤ (pruneTs rl.interval rl.timestamps now).length :=
        List.length_filter_le _ _
      omega

/-- Along any strictly sequential run, every admission sees at most
`limit` recorded timestamps inside the trailing window. -/
theorem seqRun_window_le (deltas : List Nat) :
    ∀ (rl : RateLimiter) (t now : Nat), 0 < rl.limit →
    (∀ x ∈ rl.timestamps, x ≤ t) →
    countWindow rl.interval rl.timestamps t ≤ rl.limit →
    t ≤ now →
    ∀ p ∈ (seqRun rl now deltas).2, p.2 ≤ rl.limit := by
  induction deltas with
  | nil => intro rl t now _ _ _ _ p hp; simp [seqRun] at hp
  | cons d ds ih =>
    intro rl t now hl hle hcnt htn p hp
    have hstep := waitForSlot_step_inv rl t (now + d) hl hle hcnt (by omega)
    obtain ⟨h1, h2, h3, h4, h5⟩ := hstep
    simp only [seqRun, List.mem_cons] at hp
    rcases hp with hp | hp
    · rw [hp]; exact h2
    · have := ih (waitForSlot rl (now + d)).1 (waitForSlot rl (now + d)).2
        (waitForSlot rl (now + d)).2 (by rw [h4]; exact hl)
        h1 (by rw [h4, h5]; exact h2) le_rfl p hp
      rw [h4] at this
      exact this

/-! ## Claims about the rate limiter -/

/-- C1 (counterexample).  The claimed invariant — at the moment any call
is admitted, the number of recorded timestamps within the trailing
window is at most the capacity — fails for interleaved callers: with
capacity 2 and window 1000 ms, five contending callers produce an
admission that sees 3 timestamps inside the window, because a caller
that slept pushes its admission without re-running the prune-and-check. -/
theorem waitForSlot_concurrent_window_overflow :
    ¬ ∀ p ∈ (runM 2 1000 8 burstInit).admissions, p.2 ≤ 2 := by decide

/-- C1 (amended).  For strictly sequential admissions (each
`waitForSlot` call completes before the next is issued) on a limiter
with positive capacity and initially empty state, every admission sees
at most `limit` recorded timestamps within the trailing window. -/
theorem waitForSlot_sequential_window_bound (rl : RateLimiter)
    (hl : 0 < rl.limit) (h0 : rl.timestamps = []) (deltas : List Nat) :
    ∀ p ∈ (seqRun rl 0 deltas).2, p.2 ≤ rl.limit :=
  seqRun_window_le deltas rl 0 0 hl (by simp [h0])
    (by simp [countWindow, h0]) le_rfl

theorem waitForSlot_sequential_window_bound_witness :
    ((0, 2) ∈ (seqRun (mkRateLimiter ⟨2, some 1000⟩) 0 [0, 0, 0]).2) ∧
    2 ≤ (mkRateLimiter ⟨2, some 1000⟩).limit :=
  ⟨by decide,
   waitForSlot_sequential_window_bound (mkRateLimiter ⟨2, some 1000⟩)
     (by decide) rfl [0, 0, 0] (0, 2) (by decide)⟩

/-- C2 (counterexample).  With capacity 2 and window 1000 ms, after
seven event-loop blocks of the five-caller burst the next pending event
is a suspended caller resuming at t = 1000; at that moment the
prune-and-check counts 2 ≥ capacity recorded timestamps in the window
(the check would deny admission), yet the next block records the
admission anyway: the caller never re-runs the check after sleeping. -/
theorem waitForSlot_admits_despite_failed_recheck :
    (runM 2 1000 7 burstInit).queue = [(1000, .resume)] ∧
    2 ≤ countWindow 1000 (runM 2 1000 7 burstInit).timestamps 1000 ∧
    (runM 2 1000 8 burstInit).admissions =
      (runM 2 1000 7 burstInit).admissions ++ [(1000, 3)] := by decide

/-- C2 (amended).  When the post-prune count is at or above capacity,
the caller suspends for exactly `delay = interval - (now - oldest)` and
then records its admission directly, without re-running the
prune-and-check step. -/
theorem waitForSlot_full_sleeps_then_records_unchecked (rl : RateLimiter)
    (now oldest : Nat) (rest : List Nat)
    (hfull : rl.limit ≤ (pruneTs rl.interval rl.timestamps now).length)
    (hhead : pruneTs rl.interval rl.timestamps now = oldest :: rest) :
    waitForSlot rl now =
      ({ rl with timestamps :=
          (oldest :: rest) ++ [now + (rl.interval - (now - oldest))] },
        now + (rl.interval - (now - oldest))) := by
  unfold waitForSlot
  rw [hhead] at hfull ⊢
  rw [if_pos hfull]

theorem waitForSlot_full_sleeps_then_records_unchecked_witness :
    waitForSlot ⟨1, 10, [0]⟩ 5 = (⟨1, 10, [0, 10]⟩, 10) :=
  waitForSlot_full_sleeps_then_records_unchecked ⟨1, 10, [0]⟩ 5 0 []
    (by decide) (by decide)

/-- C5 (counterexample).  Constructing a rate limiter with capacity 0 is
not rejected: the constructor produces a limiter. -/
theorem mkRateLimiter_accepts_zero_capacity :
    mkRateLimiter ⟨0, none⟩ =
      { limit := 0, interval := 60000, timestamps := [] } := rfl

/-- C5 (amended).  The constructor performs no validation at all: any
capacity, including 0, yields a limiter (with the default 60000 ms
window when none is given).  The capacity-0 limiter is still operative
rather than failing: the first call, from the fresh empty state, is
admitted immediately (the computed delay is `NaN`, which `setTimeout`
treats as 0), while a later call inside the window takes the full
branch and sleeps for `interval - (now - oldest)` before being
recorded — here, a second call at t = 1 after a first at t = 0 is
recorded only at t = 60000. -/
theorem mkRateLimiter_never_rejects :
    (∀ cfg : RateLimiterConfig, mkRateLimiter cfg =
      { limit := cfg.limit, interval := cfg.intervalMs.getD 60000,
        timestamps := [] }) ∧
    (∀ now : Nat, waitForSlot (mkRateLimiter ⟨0, none⟩) now =
      ({ limit := 0, interval := 60000, timestamps := [now] }, now)) ∧
    waitForSlot { limit := 0, interval := 60000, timestamps := [0] } 1 =
      ({ limit := 0, interval := 60000, timestamps := [0, 60000] }, 60000) :=
  ⟨fun _ => rfl, fun _ => rfl, by decide⟩

/-! ## Percent-encoding

`encodeURIComponent` per ECMA-262: unreserved characters pass through,
every other code point is UTF-8 encoded and each byte written as
`%HH` with uppercase hex digits.  `decodeURIComponent` is the inverse
ECMA Decode algorithm with an empty reserved set: `%HH` sequences are
collected and must form valid (shortest-form, scalar-value) UTF-8. -/

/-- Uppercase hex digit for a value below 16. -/
def hexDigit (d : Nat) : Nat := if d < 10 then 48 + d else 55 + d

/-- Value of a hex digit character (0-9, A-F, a-f). -/
def hexVal (c : Nat) : Option Nat :=
  if 48 ≤ c ∧ c ≤ 57 then some (c - 48)
  else if 65 ≤ c ∧ c ≤ 70 then some (c - 55)
  else if 97 ≤ c ∧ c ≤ 102 then some (c - 87)
  else none

/-- Shortest-form UTF-8 bytes of a code point. -/
def utf8Bytes (n : Nat) : List Nat :=
  if n < 0x80 then [n]
  else if n < 0x800 then [0xC0 + n / 64, 0x80 + n % 64]
  else if n < 0x10000 then [0xE0 + n / 4096, 0x80 + n / 64 % 64, 0x80 + n % 64]
  else [0xF0 + n / 262144, 0x80 + n / 4096 % 64, 0x80 + n / 64 % 64, 0x80 + n % 64]

/-- Characters `encodeURIComponent` leaves unescaped:
`A-Z a-z 0-9 - _ . ! ~ * ' ( )`. -/
def uriUnreserved (c : Nat) : Bool :=
  (48 ≤ c && c ≤ 57) || (65 ≤ c && c ≤ 90) || (97 ≤ c && c ≤ 122) ||
  c = 45 || c = 46 || c = 95 || c = 126 || c = 33 || c = 42 ||
  c = 39 || c = 40 || c = 41

/-- `%HH` escape of one byte. -/
def pctByte (b : Nat) : List Nat := [37, hexDigit (b / 16), hexDigit (b % 16)]

/-- `%HH` escapes of a byte sequence. -/
def pctEncodeBytes : List Nat → List Nat
  | [] => []
  | b :: bs => pctByte b ++ pctEncodeBytes bs

/-- Encoding of one code point. -/
def encodeOne (c : Nat) : List Nat :=
  if uriUnreserved c then [c] else pctEncodeBytes (utf8Bytes c)

/-- `encodeURIComponent`. -/
def encodeURIComponent : JSString → JSString
  | [] => []
  | c :: r => encodeOne c ++ encodeURIComponent r

/-- Read one `%HH` escape from the front of the string. -/
def readByte (l : JSString) : Option (Nat × JSString) :=
  match l with
  | h0 :: h1 :: h2 :: r =>
    if h0 = 37 then
      match hexVal h1, hexVal h2 with
      | some a, some b => some (16 * a + b, r)
      | _, _ => none
    else none
  | _ => none

/-- Read one `%HH` escape that must be a UTF-8 continuation byte;
returns its 6 payload bits. -/
def readCont (l : JSString) : Option (Nat × JSString) :=
  (readByte l).bind fun br =>
    if 0x80 ≤ br.1 ∧ br.1 < 0xC0 then some (br.1 - 0x80, br.2) else none

/-- Decode a percent-escaped UTF-8 byte sequence from the front of the
string: it must be shortest-form and denote a Unicode scalar value. -/
def decPct (l : JSString) : Option (Nat × JSString) :=
  (readByte l).bind fun br =>
    let b1 := br.1
    let r1 := br.2
    if b1 < 0x80 then some (b1, r1)
    else if b1 < 0xC0 then none
    else if b1 < 0xE0 then
      (readCont r1).bind fun c2 =>
        let n := (b1 - 0xC0) * 64 + c2.1
        if n < 0x80 then none else some (n, c2.2)
    else if b1 < 0xF0 then
      (readCont r1).bind fun c2 =>
      (readCont c2.2).bind fun c3 =>
        let n := (b1 - 0xE0) * 4096 + c2.1 * 64 + c3.1
        if n < 0x800 then none
        else if n < 0xD800 then some (n, c3.2)
        else if n < 0xE000 then none
        else some (n, c3.2)
    else if b1 < 0xF8 then
      (readCont r1).bind fun c2 =>
      (readCont c2.2).bind fun c3 =>
      (readCont c3.2).bind fun c4 =>
        let n := (b1 - 0xF0) * 262144 + c2.1 * 4096 + c3.1 * 64 + c4.1
        if n < 0x10000 then none
        else if n < 0x110000 then some (n, c4.2)
        else none
    else none

/-- Decode one code point from the front: a literal character passes
through; a `%` starts a percent-escaped byte sequence. -/
def decOne : JSString → Option (Nat × JSString)
  | [] => none
  | c :: r => if c = 37 then decPct (c :: r) else some (c, r)

/-- Reduction of `readByte` on a string of length at least three. -/
theorem readByte_cons (a b c : Nat) (r : JSString) :
    readByte (a :: b :: c :: r) =
      if a = 37 then
        match hexVal b, hexVal c with
        | some x, some y => some (16 * x + y, r)
        | _, _ => none
      else none := rfl

/-- A successful `readByte` consumes exactly three characters. -/
theorem readByte_length {l : JSString} {p : Nat × JSString}
    (h : readByte l = some p) : p.2.length + 3 = l.length := by
  rcases l with _ | ⟨a, _ | ⟨b, _ | ⟨c, r⟩⟩⟩
  · exact Option.noConfusion h
  · exact Option.noConfusion h
  · exact Option.noConfusion h
  · rw [readByte_cons] at h
    by_cases h37 : a = 37
    · rw [if_pos h37] at h
      rcases hv1 : hexVal b with _ | v1 <;> rw [hv1] at h
      · exact Option.noConfusion h
      · rcases hv2 : hexVal c with _ | v2 <;> rw [hv2] at h
        · exact Option.noConfusion h
        · injection h with h
          subst h
          simp
    · rw [if_neg h37] at h
      exact Option.noConfusion h

/-- A successful `readCont` consumes exactly three characters. -/
theorem readCont_length {l : JSString} {p : Nat × JSString}
    (h : readCont l = some p) : p.2.length + 3 = l.length := by
  unfold readCont at h
  rcases hb : readByte l with _ | ⟨b, r⟩ <;> rw [hb] at h
  · exact Option.noConfusion h
  · simp only [Option.some_bind] at h
    split at h
    · injection h with h
      subst h
      have h3 := readByte_length hb
      simpa using h3
    · exact Option.noConfusion h

/-- A successful `decPct` consumes at least one character. -/
theorem decPct_length {l : JSString} {p : Nat × JSString}
    (h : decPct l = some p) : p.2.length < l.length := by
  unfold decPct at h
  rcases hb : readByte l with _ | ⟨b1, r1⟩ <;> rw [hb] at h
  · exact Option.noConfusion h
  · have h3 := readByte_length hb
    simp only [Option.some_bind] at h
    by_cases hA : b1 < 0x80
    · rw [if_pos hA] at h
      injection h with h
      subst h
      simp at h3 ⊢
      omega
    · rw [if_neg hA] at h
      by_cases hB : b1 < 0xC0
      · rw [if_pos hB] at h
        exact Option.noConfusion h
      · rw [if_neg hB] at h
        by_cases hC : b1 < 0xE0
        · rw [if_pos hC] at h
          rcases h2 : readCont r1 with _ | ⟨v2, r2⟩ <;> rw [h2] at h
          · exact Option.noConfusion h
          · have hc2 := readCont_length h2
            simp only [Option.some_bind] at h
            split at h
            · exact Option.noConfusion h
            · injection h with h
              subst h
              simp at h3 hc2 ⊢
              omega
        · rw [if_neg hC] at h
          by_cases hD : b1 < 0xF0
          · rw [if_pos hD] at h
            rcases h2 : readCont r1 with _ | ⟨v2, r2⟩ <;> rw [h2] at h
            · exact Option.noConfusion h
            · have hc2 := readCont_length h2
              simp only [Option.some_bind] at h
              rcases h3c : readCont r2 with _ | ⟨v3, r3⟩ <;> rw [h3c] at h
              · exact Option.noConfusion h
              · have hc3 := readCont_length h3c
                simp only [Option.some_bind] at h
                split at h
                · exact Option.noConfusion h
                · split at h
                  · injection h with h
                    subst h
                    simp at h3 hc2 hc3 ⊢
                    omega
                  · split at h
                    · exact Option.noConfusion h
                    · injection h with h
                      subst h
                      simp at h3 hc2 hc3 ⊢
                      omega
          · rw [if_neg hD] at h
            by_cases hE : b1 < 0xF8
            · rw [if_pos hE] at h
              rcases h2 : readCont r1 with _ | ⟨v2, r2⟩ <;> rw [h2] at h
              · exact Option.noConfusion h
              · have hc2 := readCont_length h2
                simp only [Option.some_bind] at h
                rcases h3c : readCont r2 with _ | ⟨v3, r3⟩ <;> rw [h3c] at h
                · exact Option.noConfusion h
                · have hc3 := readCont_length h3c
                  simp only [Option.some_bind] at h
                  rcases h4c : readCont r3 with _ | ⟨v4, r4⟩ <;> rw [h4c] at h
                  · exact Option.noConfusion h
                  · have hc4 := readCont_length h4c
                    simp only [Option.some_bind] at h
                    split at h
                    · exact Option.noConfusion h
                    · split at h
                      · injection h with h
                        subst h
                        simp at h3 hc2 hc3 hc4 ⊢
                        omega
                      · exact Option.noConfusion h
            · rw [if_neg hE] at h
              exact Option.noConfusion h

/-- A successful `decOne` consumes at least one character. -/
theorem decOne_length {l : JSString} {p : Nat × JSString}
    (h : decOne l = some p) : p.2.length < l.length := by
  rcases l with _ | ⟨c, r⟩
  · exact Option.noConfusion h
  · rw [show decOne (c :: r) = if c = 37 then decPct (c :: r) else some (c, r) from rfl] at h
    split at h
    · exact decPct_length h
    · injection h with h; subst h; simp

/-- Decode with fuel; `decOne` consumes at least one character per
step, so `l.length` steps always suffice. -/
def decodeLoop : Nat → JSString → Option JSString
  | _, [] => some []
  | 0, _ :: _ => none
  | fuel + 1, c :: r =>
    match decOne (c :: r) with
    | none => none
    | some p => (decodeLoop fuel p.2).map (p.1 :: ·)

/-- `decodeURIComponent`: decode the whole string, failing on any
malformed escape sequence. -/
def decodeURIComponent (l : JSString) : Option JSString :=
  decodeLoop l.length l

/-- `decodeLoop` is fuel-irrelevant once the fuel covers the length. -/
theorem decodeLoop_congr (fuel : Nat) :
    ∀ (fuel2 : Nat) (l : JSString), l.length ≤ fuel → l.length ≤ fuel2 →
    decodeLoop fuel l = decodeLoop fuel2 l := by
  induction fuel with
  | zero =>
    intro fuel2 l h h2
    cases l with
    | nil => cases fuel2 <;> rfl
    | cons c r => simp at h
  | succ n ih =>
    intro fuel2 l h h2
    cases l with
    | nil => cases fuel2 <;> rfl
    | cons c r =>
      cases fuel2 with
      | zero => simp at h2
      | succ m =>
        have e1 : decodeLoop (n + 1) (c :: r) =
            match decOne (c :: r) with
            | none => none
            | some p => (decodeLoop n p.2).map (p.1 :: ·) := rfl
        have e2 : decodeLoop (m + 1) (c :: r) =
            match decOne (c :: r) with
            | none => none
            | some p => (decodeLoop m p.2).map (p.1 :: ·) := rfl
        rw [e1, e2]
        rcases hd : decOne (c :: r) with _ | p
        · rfl
        · dsimp only
          have hlen := decOne_length hd
          simp only [List.length_cons] at h h2 hlen
          rw [ih m p.2 (by omega) (by omega)]

/-! ## Round-trip of percent-encoding -/

/-- Hex digits read back to their value. -/
theorem hexVal_hexDigit (d : Nat) (h : d < 16) :
    hexVal (hexDigit d) = some d := by
  interval_cases d <;> decide

/-- Reading back one `%HH` escape of a byte. -/
theorem readByte_pct (b : Nat) (hb : b < 256) (t : JSString) :
    readByte (pctByte b ++ t) = some (b, t) := by
  have h1 : b / 16 < 16 := by omega
  have h2 : b % 16 < 16 := by omega
  show readByte (37 :: hexDigit (b / 16) :: hexDigit (b % 16) :: t) = some (b, t)
  rw [readByte_cons, if_pos rfl, hexVal_hexDigit _ h1, hexVal_hexDigit _ h2]
  have hdm : 16 * (b / 16) + b % 16 = b := by omega
  simp [hdm]

/-- Reading back one escaped continuation byte. -/
theorem readCont_pct (b : Nat) (h1 : 0x80 ≤ b) (h2 : b < 0xC0) (t : JSString) :
    readCont (pctByte b ++ t) = some (b - 0x80, t) := by
  unfold readCont
  rw [readByte_pct b (by omega) t]
  simp only [Option.some_bind]
  rw [if_pos ⟨h1, h2⟩]

/-- Decoding one escaped ASCII byte. -/
theorem decPct_pct1 (b : Nat) (hb : b < 0x80) (t : JSString) :
    decPct (pctByte b ++ t) = some (b, t) := by
  unfold decPct
  rw [readByte_pct b (by omega) t]
  simp only [Option.some_bind]
  rw [if_pos hb]

/-- Decoding one escaped two-byte UTF-8 sequence. -/
theorem decPct_pct2 (b1 b2 : Nat) (h1a : 0xC0 ≤ b1) (h1b : b1 < 0xE0)
    (h2a : 0x80 ≤ b2) (h2b : b2 < 0xC0)
    (hn : 0x80 ≤ (b1 - 0xC0) * 64 + (b2 - 0x80)) (t : JSString) :
    decPct (pctByte b1 ++ (pctByte b2 ++ t)) =
      some ((b1 - 0xC0) * 64 + (b2 - 0x80), t) := by
  unfold decPct
  rw [readByte_pct b1 (by omega) _]
  simp only [Option.some_bind]
  rw [if_neg (by omega), if_neg (by omega), if_pos h1b]
  rw [readCont_pct b2 h2a h2b t]
  simp only [Option.some_bind]
  rw [if_neg (by omega)]

/-- Decoding one escaped three-byte UTF-8 sequence. -/
theorem decPct_pct3 (b1 b2 b3 : Nat) (h1a : 0xE0 ≤ b1) (h1b : b1 < 0xF0)
    (h2a : 0x80 ≤ b2) (h2b : b2 < 0xC0) (h3a : 0x80 ≤ b3) (h3b : b3 < 0xC0)
    (hn : 0x800 ≤ (b1 - 0xE0) * 4096 + (b2 - 0x80) * 64 + (b3 - 0x80))
    (hsur : (b1 - 0xE0) * 4096 + (b2 - 0x80) * 64 + (b3 - 0x80) < 0xD800 ∨
      0xE000 ≤ (b1 - 0xE0) * 4096 + (b2 - 0x80) * 64 + (b3 - 0x80))
    (t : JSString) :
    decPct (pctByte b1 ++ (pctByte b2 ++ (pctByte b3 ++ t))) =
      some ((b1 - 0xE0) * 4096 + (b2 - 0x80) * 64 + (b3 - 0x80), t) := by
  unfold decPct
  rw [readByte_pct b1 (by omega) _]
  simp only [Option.some_bind]
  rw [if_neg (by omega), if_neg (by omega), if_neg (by omega), if_pos h1b]
  rw [readCont_pct b2 h2a h2b _]
  simp only [Option.some_bind]
  rw [readCont_pct b3 h3a h3b t]
  simp only [Option.some_bind]
  rw [if_neg (by omega)]
  rcases hsur with hs | hs
  · rw [if_pos hs]
  · rw [if_neg (by omega), if_neg (by omega)]

/-- Decoding one escaped four-byte UTF-8 sequence. -/
theorem decPct_pct4 (b1 b2 b3 b4 : Nat) (h1a : 0xF0 ≤ b1) (h1b : b1 < 0xF8)
    (h2a : 0x80 ≤ b2) (h2b : b2 < 0xC0) (h3a : 0x80 ≤ b3) (h3b : b3 < 0xC0)
    (h4a : 0x80 ≤ b4) (h4b : b4 < 0xC0)
    (hlo : 0x10000 ≤ (b1 - 0xF0) * 262144 + (b2 - 0x80) * 4096 +
      (b3 - 0x80) * 64 + (b4 - 0x80))
    (hhi : (b1 - 0xF0) * 262144 + (b2 - 0x80) * 4096 +
      (b3 - 0x80) * 64 + (b4 - 0x80) < 0x110000)
    (t : JSString) :
    decPct (pctByte b1 ++ (pctByte b2 ++ (pctByte b3 ++ (pctByte b4 ++ t)))) =
      some ((b1 - 0xF0) * 262144 + (b2 - 0x80) * 4096 +
        (b3 - 0x80) * 64 + (b4 - 0x80), t) := by
  unfold decPct
  rw [readByte_pct b1 (by omega) _]
  simp only [Option.some_bind]
  rw [if_neg (by omega), if_neg (by omega), if_neg (by omega), if_neg (by omega),
    if_pos h1b]
  rw [readCont_pct b2 h2a h2b _]
  simp only [Option.some_bind]
  rw [readCont_pct b3 h3a h3b _]
  simp only [Option.some_bind]
  rw [readCont_pct b4 h4a h4b t]
  simp only [Option.some_bind]
  rw [if_neg (by omega), if_pos hhi]

/-- Reduction of `decOne` on a nonempty string. -/
theorem decOne_cons (c : Nat) (r : JSString) :
    decOne (c :: r) = if c = 37 then decPct (c :: r) else some (c, r) := rfl

/-- A percent escape routes `decOne` into `decPct`. -/
theorem decOne_pctByte (b : Nat) (X : JSString) :
    decOne (pctByte b ++ X) = decPct (pctByte b ++ X) := rfl

/-- Decoding inverts the encoding of a single Unicode scalar value. -/
theorem decOne_encodeOne (c : Nat) (hlt : c < 0x110000)
    (hsur : c < 0xD800 ∨ 0xE000 ≤ c) (t : JSString) :
    decOne (encodeOne c ++ t) = some (c, t) := by
  unfold encodeOne
  by_cases hu : uriUnreserved c = true
  · rw [if_pos hu]
    have h37 : ¬ c = 37 := by
      intro hc
      subst hc
      exact absurd hu (by decide)
    show decOne (c :: t) = some (c, t)
    rw [decOne_cons, if_neg h37]
  · rw [if_neg hu]
    unfold utf8Bytes
    by_cases h1 : c < 0x80
    · rw [if_pos h1]
      rw [show pctEncodeBytes [c] ++ t = pctByte c ++ t by simp [pctEncodeBytes]]
      rw [decOne_pctByte, decPct_pct1 c h1 t]
    · rw [if_neg h1]
      by_cases h2 : c < 0x800
      · rw [if_pos h2]
        rw [show pctEncodeBytes [0xC0 + c / 64, 0x80 + c % 64] ++ t
            = pctByte (0xC0 + c / 64) ++ (pctByte (0x80 + c % 64) ++ t) by
          simp [pctEncodeBytes]]
        rw [decOne_pctByte,
          decPct_pct2 (0xC0 + c / 64) (0x80 + c % 64) (by omega) (by omega)
            (by omega) (by omega) (by omega) t]
        have hv : (0xC0 + c / 64 - 0xC0) * 64 + (0x80 + c % 64 - 0x80) = c := by
          omega
        rw [hv]
      · rw [if_neg h2]
        by_cases h3 : c < 0x10000
        · rw [if_pos h3]
          rw [show pctEncodeBytes [0xE0 + c / 4096, 0x80 + c / 64 % 64, 0x80 + c % 64] ++ t
              = pctByte (0xE0 + c / 4096) ++ (pctByte (0x80 + c / 64 % 64)
                ++ (pctByte (0x80 + c % 64) ++ t)) by
            simp [pctEncodeBytes]]
          have hv : (0xE0 + c / 4096 - 0xE0) * 4096 + (0x80 + c / 64 % 64 - 0x80) * 64
              + (0x80 + c % 64 - 0x80) = c := by omega
          rw [decOne_pctByte,
            decPct_pct3 (0xE0 + c / 4096) (0x80 + c / 64 % 64) (0x80 + c % 64)
              (by omega) (by omega) (by omega) (by omega) (by omega) (by omega)
              (by omega)
              (by
                rcases hsur with hs | hs
                · exact Or.inl (by omega)
                · exact Or.inr (by omega))
              t]
          rw [hv]
        · rw [if_neg h3]
          rw [show pctEncodeBytes [0xF0 + c / 262144, 0x80 + c / 4096 % 64,
                0x80 + c / 64 % 64, 0x80 + c % 64] ++ t
              = pctByte (0xF0 + c / 262144) ++ (pctByte (0x80 + c / 4096 % 64)
                ++ (pctByte (0x80 + c / 64 % 64) ++ (pctByte (0x80 + c % 64) ++ t))) by
            simp [pctEncodeBytes]]
          have hv : (0xF0 + c / 262144 - 0xF0) * 262144
              + (0x80 + c / 4096 % 64 - 0x80) * 4096
              + (0x80 + c / 64 % 64 - 0x80) * 64 + (0x80 + c % 64 - 0x80) = c := by
            omega
          rw [decOne_pctByte,
            decPct_pct4 (0xF0 + c / 262144) (0x80 + c / 4096 % 64)
              (0x80 + c / 64 % 64) (0x80 + c % 64)
              (by omega) (by omega) (by omega) (by omega) (by omega) (by omega)
              (by omega) (by omega) (by omega) (by omega) t]
          rw [hv]

/-- Encoding a code point never yields the empty string. -/
theorem encodeOne_ne_nil (c : Nat) : encodeOne c ≠ [] := by
  unfold encodeOne
  split
  · simp
  · unfold utf8Bytes
    split
    · simp [pctEncodeBytes, pctByte]
    · split
      · simp [pctEncodeBytes, pctByte]
      · split <;> simp [pctEncodeBytes, pctByte]

/-- The decoder on the empty string. -/
theorem decodeURIComponent_nil : decodeURIComponent [] = some [] := rfl

/-- The decoder steps by one decoded code point. -/
theorem decodeURIComponent_step {l : JSString} {p : Nat × JSString}
    (hne : l ≠ []) (hd : decOne l = some p) :
    decodeURIComponent l = (decodeURIComponent p.2).map (p.1 :: ·) := by
  rcases l with _ | ⟨c, r⟩
  · exact absurd rfl hne
  · have e1 : decodeURIComponent (c :: r) =
        match decOne (c :: r) with
        | none => none
        | some q => (decodeLoop r.length q.2).map (q.1 :: ·) := rfl
    rw [e1, hd]
    dsimp only
    have hlen := decOne_length hd
    simp only [List.length_cons] at hlen
    unfold decodeURIComponent
    rw [decodeLoop_congr r.length p.2.length p.2 (by omega) le_rfl]

/-- Scalar-value code points: what a well-formed JS string (with no
lone surrogates) contains. -/
def ValidCP (c : Nat) : Prop := c < 0x110000 ∧ (c < 0xD800 ∨ 0xE000 ≤ c)

instance ValidCP.decidable (c : Nat) : Decidable (ValidCP c) := by
  unfold ValidCP
  infer_instance

/-- Percent-encoding round-trips on every well-formed string. -/
theorem decode_encode (s : JSString) (h : ∀ c ∈ s, ValidCP c) :
    decodeURIComponent (encodeURIComponent s) = some s := by
  induction s with
  | nil => exact decodeURIComponent_nil
  | cons c r ih =>
    have hc := h c (by simp)
    have hr : ∀ x ∈ r, ValidCP x := fun x hx => h x (by simp [hx])
    have hdec := decOne_encodeOne c hc.1 hc.2 (encodeURIComponent r)
    have hne : encodeOne c ++ encodeURIComponent r ≠ [] := by
      intro hcon
      exact encodeOne_ne_nil c (List.append_eq_nil.mp hcon).1
    have hstep := decodeURIComponent_step hne hdec
    show decodeURIComponent (encodeOne c ++ encodeURIComponent r) = some (c :: r)
    rw [hstep, ih hr]
    rfl

/-! ## The gateway: validation, dispatch, response envelope

Handlers receive an argument mapping, validate via `ensureString`,
build the upstream path with `encodeURIComponent`, await the governing
limiter and issue exactly one HTTP GET through `fetchWithRateLimit`;
`registerTool` wraps the outcome into a `CallToolResult` via
`successResponse` / `errorResponse`.  The upstream and the JSON
rendering of successful bodies are supplied by an environment. -/

/-- A supplied argument value: a string, or anything that is not a
string (objects, numbers, undefined and so on all fail the
`typeof value !== 'string'` test identically). -/
inductive JVal where
  | str (s : JSString)
  | nonString
deriving DecidableEq

/-- The argument mapping of one call. -/
abbrev Args := List (JSString × JVal)

/-- Property access on the argument object: first binding wins. -/
def lookupArg (args : Args) (k : JSString) : Option JVal :=
  (args.find? (fun kv => kv.1 == k)).map (fun kv => kv.2)

/-- Thrown values reaching `errorResponse`: an axios error (carrying an
optional HTTP status and optional upstream body message), an ordinary
`Error`, or any non-`Error` throwable. -/
inductive JsError where
  | axiosErr (status : Option Nat) (apiMessage : Option JSString) (message : JSString)
  | jsError (message : JSString)
  | otherThrown
deriving DecidableEq

/-- Decimal rendering of a number. -/
def numStr (n : Nat) : JSString := js (toString n)

/-- The message computed by `errorResponse`. -/
def errMessage : JsError → JSString
  | .axiosErr (some st) apiMsg msg =>
    js "API error (" ++ numStr st ++ js "): " ++ apiMsg.getD msg
  | .axiosErr none _ msg => js "Network error: " ++ msg
  | .jsError m => m
  | .otherThrown => js "Unknown error"

/-- One item of a tool result; the `type` field is always the literal
string `text`. -/
structure ContentItem where
  text : JSString
deriving DecidableEq

/-- `CallToolResult`: the envelope returned to the caller.  Success
responses omit `isError`, which reads back as false. -/
structure CallToolResult where
  isError : Bool
  content : List ContentItem
deriving DecidableEq

/-- `errorResponse`: a single text item carrying the formatted message. -/
def errorResponse (e : JsError) : CallToolResult :=
  { isError := true, content := [⟨js "Error: " ++ errMessage e⟩] }

/-- The upstream request: what `new URL(endpoint, BASE_URL)` plus
`searchParams` determine. -/
structure URLm where
  path : JSString
  query : List (JSString × JSString)
deriving DecidableEq

/-- Outcome of one upstream HTTP GET. -/
inductive UpstreamResult where
  | ok (body : JSString)
  | httpError (status : Nat) (dataMessage : Option JSString)
  | netError (message : JSString)

/-- Environment: upstream behaviour plus the opaque rendering
`JSON.stringify(data, null, 2)` applied to successful bodies. -/
structure Env where
  upstream : URLm → UpstreamResult
  stringify : JSString → JSString

/-- `successResponse` applied to the rendered body. -/
def successResponse (env : Env) (body : JSString) : CallToolResult :=
  { isError := false, content := [⟨env.stringify body⟩] }

/-- The axios error message for a non-2xx response. -/
def axiosHttpMsg (st : Nat) : JSString :=
  js "Request failed with status code " ++ numStr st

/-- `fetchWithRateLimit`: await the limiter slot, then issue exactly one
GET; non-2xx and transport failures surface as thrown axios errors.
Returns the updated limiter, the list of upstream calls issued, and the
result. -/
def fetchWithRateLimit (env : Env) (endpoint : JSString) (rl : RateLimiter)
    (params : List (JSString × JSString)) (now : Nat) :
    RateLimiter × List URLm × Except JsError JSString :=
  let w := waitForSlot rl now
  let url : URLm := ⟨endpoint, params⟩
  match env.upstream url with
  | .ok body => (w.1, [url], .ok body)
  | .httpError st d => (w.1, [url], .error (.axiosErr (some st) d (axiosHttpMsg st)))
  | .netError m => (w.1, [url], .error (.axiosErr none none m))

/-- The two module-level limiter states. -/
structure Gateway where
  tokenRL : RateLimiter
  dexRL : RateLimiter
deriving DecidableEq

/-- Fresh process state: `tokenRateLimiter` (60/min) and
`dexRateLimiter` (300/min), both with empty windows. -/
def initGateway : Gateway :=
  ⟨mkRateLimiter ⟨60, none⟩, mkRateLimiter ⟨300, none⟩⟩

/-- `ensureString`: require a string whose trim is nonempty; return the
trimmed value, else throw. -/
def ensureString (v : Option JVal) (field : JSString) : Except JsError JSString :=
  match v with
  | some (.str s) =>
    if (jsTrim s).length = 0 then
      .error (.jsError (js "Missing or invalid \"" ++ field ++ js "\" parameter"))
    else .ok (jsTrim s)
  | _ => .error (.jsError (js "Missing or invalid \"" ++ field ++ js "\" parameter"))

/-- `Array.prototype.join(sep)`. -/
def joinSep (sep : JSString) : List JSString → JSString
  | [] => []
  | [x] => x
  | x :: y :: xs => x ++ sep ++ joinSep sep (y :: xs)

/-- The address-list pipeline of `get_pairs_by_token_addresses`:
split on commas, trim each entry, drop empty entries, percent-encode
each, re-join with commas. -/
def buildAddresses (s : JSString) : JSString :=
  joinSep [44]
    ((((s.splitOn 44).map jsTrim).filter (fun a => !a.isEmpty)).map encodeURIComponent)

/-- `registerTool`: successes and thrown errors share one wrapper. -/
def wrapResult (env : Env) : Except JsError JSString → CallToolResult
  | .ok body => successResponse env body
  | .error e => errorResponse e

/-- The embedded operations (the ones the claims are about). -/
inductive Tool where
  | get_token_orders
  | get_pairs_by_chain_and_address
  | get_pairs_by_token_addresses
deriving DecidableEq

/-- One invocation: validate, resolve the path, dispatch through the
operation's limiter, wrap the outcome.  Returns the new gateway state,
the upstream calls issued, and the caller-visible result. -/
def invoke (env : Env) (tool : Tool) (args : Args) (gw : Gateway) (now : Nat) :
    Gateway × List URLm × CallToolResult :=
  match tool with
  | .get_token_orders =>
    match ensureString (lookupArg args (js "chainId")) (js "chainId") with
    | .error e => (gw, [], errorResponse e)
    | .ok safeChain =>
      match ensureString (lookupArg args (js "tokenAddress")) (js "tokenAddress") with
      | .error e => (gw, [], errorResponse e)
      | .ok safeToken =>
        let r := fetchWithRateLimit env
          (js "/orders/v1/" ++ encodeURIComponent safeChain ++ js "/"
            ++ encodeURIComponent safeToken) gw.tokenRL [] now
        ({ gw with tokenRL := r.1 }, r.2.1, wrapResult env r.2.2)
  | .get_pairs_by_chain_and_address =>
    match ensureString (lookupArg args (js "chainId")) (js "chainId") with
    | .error e => (gw, [], errorResponse e)
    | .ok safeChain =>
      match ensureString (lookupArg args (js "pairId")) (js "pairId") with
      | .error e => (gw, [], errorResponse e)
      | .ok safePair =>
        let r := fetchWithRateLimit env
          (js "/latest/dex/pairs/" ++ encodeURIComponent safeChain ++ js "/"
            ++ encodeURIComponent safePair) gw.dexRL [] now
        ({ gw with dexRL := r.1 }, r.2.1, wrapResult env r.2.2)
  | .get_pairs_by_token_addresses =>
    match ensureString (lookupArg args (js "tokenAddresses")) (js "tokenAddresses") with
    | .error e => (gw, [], errorResponse e)
    | .ok safe =>
      let addresses := buildAddresses safe
      if addresses = [] then
        (gw, [], errorResponse (.jsError (js "Provide at least one token address")))
      else
        let r := fetchWithRateLimit env (js "/latest/dex/tokens/" ++ addresses)
          gw.dexRL [] now
        ({ gw with dexRL := r.1 }, r.2.1, wrapResult env r.2.2)

/-! ## Dispatch facts -/

/-- One invocation of `fetchWithRateLimit` issues exactly one upstream
call, whatever the outcome: no retries exist. -/
theorem fetchWithRateLimit_calls (env : Env) (ep : JSString) (rl : RateLimiter)
    (ps : List (JSString × JSString)) (now : Nat) :
    (fetchWithRateLimit env ep rl ps now).2.1 = [⟨ep, ps⟩] := by
  unfold fetchWithRateLimit
  dsimp only
  split <;> rfl

/-- The limiter state after `fetchWithRateLimit` is exactly the state
after its `waitForSlot`, whatever the upstream outcome. -/
theorem fetchWithRateLimit_rl (env : Env) (ep : JSString) (rl : RateLimiter)
    (ps : List (JSString × JSString)) (now : Nat) :
    (fetchWithRateLimit env ep rl ps now).1 = (waitForSlot rl now).1 := by
  unfold fetchWithRateLimit
  dsimp only
  split <;> rfl

/-- The dispatch result classifies the upstream outcome. -/
theorem fetchWithRateLimit_upstream (env : Env) (ep : JSString) (rl : RateLimiter)
    (ps : List (JSString × JSString)) (now : Nat) :
    (fetchWithRateLimit env ep rl ps now).2.2 =
      match env.upstream ⟨ep, ps⟩ with
      | .ok body => .ok body
      | .httpError st d => .error (.axiosErr (some st) d (axiosHttpMsg st))
      | .netError m => .error (.axiosErr none none m) := by
  unfold fetchWithRateLimit
  dsimp only
  split <;> rfl

/-- `waitForSlot` always appends exactly one timestamp (the admission
time) to the pruned window. -/
theorem waitForSlot_appends (rl : RateLimiter) (now : Nat) :
    (waitForSlot rl now).1.timestamps =
      pruneTs rl.interval rl.timestamps now ++ [(waitForSlot rl now).2] := by
  unfold waitForSlot
  by_cases hfull : rl.limit ≤ (pruneTs rl.interval rl.timestamps now).length
  · rw [if_pos hfull]
    cases hp : pruneTs rl.interval rl.timestamps now with
    | nil => rfl
    | cons oldest rest => rfl
  · rw [if_neg hfull]

/-- From an empty window with positive capacity, a call is admitted
immediately and the state afterwards is a single timestamp. -/
theorem waitForSlot_empty (rl : RateLimiter) (now : Nat)
    (h0 : rl.timestamps = []) (hl : 0 < rl.limit) :
    waitForSlot rl now = ({ rl with timestamps := [now] }, now) := by
  unfold waitForSlot
  rw [h0]
  rw [show pruneTs rl.interval [] now = [] from rfl]
  rw [if_neg (by simpa using by omega)]
  rfl

/-- Boolean test distilled from `ensureString`: the argument is present,
is a string, and trims to a nonempty value. -/
def validStr : Option JVal → Bool
  | some (.str s) => !(jsTrim s).isEmpty
  | _ => false

/-- When the test fails, `ensureString` throws the handler's
`Missing or invalid` error. -/
theorem ensureString_fail (v : Option JVal) (f : JSString)
    (h : validStr v = false) :
    ensureString v f =
      .error (.jsError (js "Missing or invalid \"" ++ f ++ js "\" parameter")) := by
  rcases v with _ | v
  · rfl
  · rcases v with s | _
    · simp only [validStr, Bool.not_eq_false'] at h
      have hs : (jsTrim s).length = 0 := by
        rw [List.isEmpty_iff] at h
        simp [h]
      unfold ensureString
      dsimp only
      rw [if_pos hs]
    · rfl

/-- The required canonical argument names of each operation. -/
def requiredKeys : Tool → List JSString
  | .get_token_orders => [js "chainId", js "tokenAddress"]
  | .get_pairs_by_chain_and_address => [js "chainId", js "pairId"]
  | .get_pairs_by_token_addresses => [js "tokenAddresses"]

/-! ## Claims about resolution, dispatch and the envelope -/

/-- A concrete environment whose upstream always succeeds. -/
def envConst : Env := ⟨fun _ => .ok (js "body"), fun s => s⟩

/-- A concrete environment whose upstream always answers HTTP 429 with
a body message. -/
def env429 : Env := ⟨fun _ => .httpError 429 (some (js "rate limit")), fun s => s⟩

/-- C3 (counterexample).  The handler destructures the argument object
by its canonical property names only; no alias search exists.  The call
with keys chain_id and contractAddress fails validation, issues no
upstream call, and returns the `Missing or invalid` error rather than
resolving to `/orders/v1/solana/ABC`. -/
theorem get_token_orders_alias_args_rejected :
    (invoke envConst .get_token_orders
      [(js "chain_id", .str (js "solana")), (js "contractAddress", .str (js "ABC"))]
      initGateway 0).2.1 = [] ∧
    (invoke envConst .get_token_orders
      [(js "chain_id", .str (js "solana")), (js "contractAddress", .str (js "ABC"))]
      initGateway 0).2.2 =
      errorResponse (.jsError (js "Missing or invalid \"chainId\" parameter")) := by
  exact ⟨rfl, rfl⟩

/-- C3 (amended).  Arguments are resolved only under their canonical
names; supplying chainId = solana and tokenAddress = ABC resolves the
call to the upstream path `/orders/v1/solana/ABC`, for any upstream
behaviour and any limiter state. -/
theorem get_token_orders_canonical_resolution (env : Env) (gw : Gateway) (now : Nat) :
    (invoke env .get_token_orders
      [(js "chainId", .str (js "solana")), (js "tokenAddress", .str (js "ABC"))]
      gw now).2.1 = [⟨js "/orders/v1/solana/ABC", []⟩] := by
  show (fetchWithRateLimit env
    (js "/orders/v1/" ++ encodeURIComponent (js "solana") ++ js "/"
      ++ encodeURIComponent (js "ABC")) gw.tokenRL [] now).2.1 = _
  rw [fetchWithRateLimit_calls]
  rfl

/-- C4 (counterexample).  The failure payload carries no
machine-readable kind: a plain thrown `Error` whose message happens to
read like an API failure produces a payload identical to a genuine
upstream HTTP 429, and that payload is a single human-readable text
string a caller can only string-match on. -/
theorem errorResponse_kind_collision :
    errorResponse (.jsError (js "API error (429): rate limit")) =
      errorResponse (.axiosErr (some 429) (some (js "rate limit"))
        (js "Request failed with status code 429")) ∧
    errorResponse (.axiosErr (some 429) (some (js "rate limit"))
      (js "Request failed with status code 429")) =
      { isError := true,
        content := [⟨js "Error: API error (429): rate limit"⟩] } := by
  exact ⟨by decide, by decide⟩

/-- C4 (amended).  Every failing invocation returns a `CallToolResult`
with `isError = true` and a single text item of the form
`Error: <message>`; for an upstream HTTP error the message embeds the
decimal status and the upstream body message (falling back to the axios
message), and for a transport failure it starts with `Network error:`.
No separate machine-readable kind field exists. -/
theorem invoke_failure_payload_shape (env : Env) (gw : Gateway) (now : Nat)
    (st : Nat) (m : JSString)
    (h : ∀ u, env.upstream u = .httpError st (some m)) :
    (invoke env .get_token_orders
      [(js "chainId", .str (js "solana")), (js "tokenAddress", .str (js "ABC"))]
      gw now).2.2 =
      { isError := true,
        content := [⟨js "Error: API error (" ++ numStr st ++ js "): " ++ m⟩] } := by
  show wrapResult env (fetchWithRateLimit env
    (js "/orders/v1/" ++ encodeURIComponent (js "solana") ++ js "/"
      ++ encodeURIComponent (js "ABC")) gw.tokenRL [] now).2.2 = _
  rw [fetchWithRateLimit_upstream, h]
  show errorResponse (.axiosErr (some st) (some m) (axiosHttpMsg st)) = _
  unfold errorResponse errMessage
  dsimp only
  simp only [Option.getD]
  rw [← List.append_assoc]
  rfl

theorem invoke_failure_payload_shape_witness :
    (invoke env429 .get_token_orders
      [(js "chainId", .str (js "solana")), (js "tokenAddress", .str (js "ABC"))]
      initGateway 0).2.2 =
      { isError := true,
        content := [⟨js "Error: API error (429): rate limit"⟩] } := by
  have h := invoke_failure_payload_shape env429 initGateway 0 429 (js "rate limit")
    (fun _ => rfl)
  simpa using h

/-- C6.  An invocation whose required argument is absent, not a string,
or blank after trimming returns a validation failure, issues zero
upstream calls, and leaves the limiter state of every class untouched. -/
theorem invoke_missing_arg_no_side_effects (env : Env) (tool : Tool) (args : Args)
    (gw : Gateway) (now : Nat)
    (h : ∃ k ∈ requiredKeys tool, validStr (lookupArg args k) = false) :
    (invoke env tool args gw now).1 = gw ∧
    (invoke env tool args gw now).2.1 = [] ∧
    (invoke env tool args gw now).2.2.isError = true := by
  obtain ⟨k, hk, hv⟩ := h
  cases tool with
  | get_token_orders =>
    simp only [requiredKeys, List.mem_cons, List.not_mem_nil, or_false] at hk
    rcases hk with rfl | rfl
    · unfold invoke
      rw [ensureString_fail _ _ hv]
      exact ⟨rfl, rfl, rfl⟩
    · unfold invoke
      rcases h1 : ensureString (lookupArg args (js "chainId")) (js "chainId") with e | s1
      · exact ⟨rfl, rfl, rfl⟩
      · rw [ensureString_fail _ _ hv]
        exact ⟨rfl, rfl, rfl⟩
  | get_pairs_by_chain_and_address =>
    simp only [requiredKeys, List.mem_cons, List.not_mem_nil, or_false] at hk
    rcases hk with rfl | rfl
    · unfold invoke
      rw [ensureString_fail _ _ hv]
      exact ⟨rfl, rfl, rfl⟩
    · unfold invoke
      rcases h1 : ensureString (lookupArg args (js "chainId")) (js "chainId") with e | s1
      · exact ⟨rfl, rfl, rfl⟩
      · rw [ensureString_fail _ _ hv]
        exact ⟨rfl, rfl, rfl⟩
  | get_pairs_by_token_addresses =>
    simp only [requiredKeys, List.mem_cons, List.not_mem_nil, or_false] at hk
    rcases hk with rfl
    unfold invoke
    rw [ensureString_fail _ _ hv]
    exact ⟨rfl, rfl, rfl⟩

theorem invoke_missing_arg_no_side_effects_witness :
    (invoke envConst .get_token_orders [(js "tokenAddress", .str (js "ABC"))]
      initGateway 0).1 = initGateway ∧
    (invoke envConst .get_token_orders [(js "tokenAddress", .str (js "ABC"))]
      initGateway 0).2.1 = [] ∧
    (invoke envConst .get_token_orders [(js "tokenAddress", .str (js "ABC"))]
      initGateway 0).2.2.isError = true :=
  invoke_missing_arg_no_side_effects envConst .get_token_orders
    [(js "tokenAddress", .str (js "ABC"))] initGateway 0
    ⟨js "chainId", by decide, by decide⟩

/-- A concrete environment whose upstream always answers HTTP 429 with
no body. -/
def env429none : Env := ⟨fun _ => .httpError 429 none, fun s => s⟩

/-- C7.  An admitted `get_token_orders` invocation issues exactly one
upstream call (no retries), appends exactly one timestamp to the token
limiter, leaves the dex limiter untouched; from an empty window the
state afterwards is exactly one consumed slot, and even then an
upstream HTTP 429 surfaces as a failure while that single slot stays
consumed. -/
theorem invoke_admitted_one_call_one_slot (env : Env) (args : Args) (gw : Gateway)
    (now : Nat) (c t : JSString)
    (hc : ensureString (lookupArg args (js "chainId")) (js "chainId") = .ok c)
    (ht : ensureString (lookupArg args (js "tokenAddress")) (js "tokenAddress") = .ok t) :
    (invoke env .get_token_orders args gw now).2.1 =
      [⟨js "/orders/v1/" ++ encodeURIComponent c ++ js "/" ++ encodeURIComponent t, []⟩] ∧
    (invoke env .get_token_orders args gw now).1.tokenRL.timestamps =
      pruneTs gw.tokenRL.interval gw.tokenRL.timestamps now
        ++ [(waitForSlot gw.tokenRL now).2] ∧
    (invoke env .get_token_orders args gw now).1.dexRL = gw.dexRL ∧
    (gw.tokenRL.timestamps = [] → 0 < gw.tokenRL.limit →
      (invoke env .get_token_orders args gw now).1.tokenRL.timestamps = [now]) ∧
    (env.upstream ⟨js "/orders/v1/" ++ encodeURIComponent c ++ js "/"
        ++ encodeURIComponent t, []⟩ = .httpError 429 none →
      (invoke env .get_token_orders args gw now).2.2 =
        errorResponse (.axiosErr (some 429) none (axiosHttpMsg 429))) := by
  unfold invoke
  rw [hc, ht]
  dsimp only
  refine ⟨fetchWithRateLimit_calls env _ gw.tokenRL [] now, ?_, rfl, ?_, ?_⟩
  · rw [fetchWithRateLimit_rl, waitForSlot_appends]
  · intro h0 hl
    rw [fetchWithRateLimit_rl, waitForSlot_empty gw.tokenRL now h0 hl]
  · intro hup
    rw [fetchWithRateLimit_upstream, hup]
    rfl

theorem invoke_admitted_one_call_one_slot_witness :
    (invoke env429none .get_token_orders
      [(js "chainId", .str (js "solana")), (js "tokenAddress", .str (js "ABC"))]
      initGateway 0).2.1 =
      [⟨js "/orders/v1/" ++ encodeURIComponent (js "solana") ++ js "/"
        ++ encodeURIComponent (js "ABC"), []⟩] ∧
    (invoke env429none .get_token_orders
      [(js "chainId", .str (js "solana")), (js "tokenAddress", .str (js "ABC"))]
      initGateway 0).1.tokenRL.timestamps = [0] ∧
    (invoke env429none .get_token_orders
      [(js "chainId", .str (js "solana")), (js "tokenAddress", .str (js "ABC"))]
      initGateway 0).2.2 =
      errorResponse (.axiosErr (some 429) none (axiosHttpMsg 429)) := by
  have h := invoke_admitted_one_call_one_slot env429none
    [(js "chainId", .str (js "solana")), (js "tokenAddress", .str (js "ABC"))]
    initGateway 0 (js "solana") (js "ABC") rfl rfl
  exact ⟨h.1, h.2.2.2.1 rfl (by decide), h.2.2.2.2 rfl⟩

/-- C8 (counterexample).  For `get_pairs_by_token_addresses` with the
argument value `" 0xabc , 0xdef "`, the path segment substituted into
the upstream path decodes to `0xabc,0xdef`, which is not the original
trimmed argument value `0xabc , 0xdef`: inner whitespace around commas
is removed element-wise before encoding. -/
theorem tokens_segment_decode_differs_from_trim :
    decodeURIComponent (buildAddresses (jsTrim (js " 0xabc , 0xdef "))) =
      some (js "0xabc,0xdef") ∧
    jsTrim (js " 0xabc , 0xdef ") ≠ js "0xabc,0xdef" :=
  ⟨by decide, by decide⟩

/-- C8 (amended).  Percent-encoding round-trips per encoded value: for
every well-formed string, decoding the encoding of its trimmed value
yields exactly the trimmed value.  (Single-segment handlers substitute
exactly one such encoding; the comma-joined segment of
`get_pairs_by_token_addresses` instead round-trips element-wise.) -/
theorem trimmed_value_roundtrip (s : JSString) (h : ∀ c ∈ s, ValidCP c) :
    decodeURIComponent (encodeURIComponent (jsTrim s)) = some (jsTrim s) := by
  apply decode_encode
  intro x hx
  apply h
  unfold jsTrim at hx
  rw [List.mem_reverse] at hx
  have h1 := (List.dropWhile_sublist jsWs).subset hx
  rw [List.mem_reverse] at h1
  exact (List.dropWhile_sublist jsWs).subset h1

theorem trimmed_value_roundtrip_witness :
    (∀ c ∈ js " a b/c ", ValidCP c) ∧
    decodeURIComponent (encodeURIComponent (jsTrim (js " a b/c "))) =
      some (jsTrim (js " a b/c ")) :=
  ⟨by decide, trimmed_value_roundtrip (js " a b/c ") (by decide)⟩

/-- C9.  For `get_pairs_by_token_addresses`, whitespace is trimmed from
the argument and from each comma-separated element before encoding: the
argument `" 0xabc , 0xdef "` yields the encoded value `0xabc,0xdef` and
the invocation requests the path `/latest/dex/tokens/0xabc,0xdef`, for
any upstream behaviour and limiter state. -/
theorem get_pairs_by_token_addresses_trims_elements (env : Env) (gw : Gateway)
    (now : Nat) :
    buildAddresses (jsTrim (js " 0xabc , 0xdef ")) = js "0xabc,0xdef" ∧
    (invoke env .get_pairs_by_token_addresses
      [(js "tokenAddresses", .str (js " 0xabc , 0xdef "))] gw now).2.1 =
      [⟨js "/latest/dex/tokens/0xabc,0xdef", []⟩] := by
  refine ⟨by decide, ?_⟩
  show (fetchWithRateLimit env (js "/latest/dex/tokens/"
    ++ buildAddresses (jsTrim (js " 0xabc , 0xdef "))) gw.dexRL [] now).2.1 = _
  rw [fetchWithRateLimit_calls]
  decide

/-- Encoding a nonempty string yields a nonempty string. -/
theorem encodeURIComponent_ne_nil {s : JSString} (h : s ≠ []) :
    encodeURIComponent s ≠ [] := by
  cases s with
  | nil => exact absurd rfl h
  | cons c r =>
    show encodeOne c ++ encodeURIComponent r ≠ []
    intro hcon
    exact encodeOne_ne_nil c (List.append_eq_nil.mp hcon).1

/-- The joined encoded address string is empty exactly when no
non-empty element survived the trim-and-filter pipeline. -/
theorem buildAddresses_nil_iff (v : JSString) :
    (buildAddresses v = []) ↔
      ((v.splitOn 44).map jsTrim).filter (fun a => !a.isEmpty) = [] := by
  unfold buildAddresses
  rcases hel : ((v.splitOn 44).map jsTrim).filter (fun a => !a.isEmpty) with _ | ⟨e, es⟩
  · rw [hel]
    simp [joinSep]
  · have he : e ≠ [] := by
      have hmem : e ∈ ((v.splitOn 44).map jsTrim).filter (fun a => !a.isEmpty) := by
        rw [hel]
        simp
      have := List.mem_filter.mp hmem
      simpa using this.2
    have henc := encodeURIComponent_ne_nil he
    rw [hel]
    constructor
    · intro h
      exfalso
      cases es with
      | nil => exact henc (by simpa [joinSep] using h)
      | cons e2 es2 =>
        rw [show joinSep [44] (List.map encodeURIComponent (e :: e2 :: es2))
            = encodeURIComponent e ++ [44]
              ++ joinSep [44] (List.map encodeURIComponent (e2 :: es2)) from rfl] at h
        simp at h
    · intro h
      simp at h

/-- C10.  In `get_pairs_by_token_addresses`, empty list elements
(consecutive, leading or trailing commas, whitespace-only entries) are
silently dropped; if nothing survives, the invocation errors with no
upstream call and unchanged limiter state; otherwise exactly one
upstream call is issued with the joined encoded addresses — with no
upper bound on how many. -/
theorem get_pairs_by_token_addresses_drops_empty (env : Env) (args : Args)
    (gw : Gateway) (now : Nat) (v : JSString)
    (hv : ensureString (lookupArg args (js "tokenAddresses"))
      (js "tokenAddresses") = .ok v) :
    (buildAddresses v = [] ↔
      ((v.splitOn 44).map jsTrim).filter (fun a => !a.isEmpty) = []) ∧
    (buildAddresses v = [] →
      (invoke env .get_pairs_by_token_addresses args gw now).1 = gw ∧
      (invoke env .get_pairs_by_token_addresses args gw now).2.1 = [] ∧
      (invoke env .get_pairs_by_token_addresses args gw now).2.2 =
        errorResponse (.jsError (js "Provide at least one token address"))) ∧
    (buildAddresses v ≠ [] →
      (invoke env .get_pairs_by_token_addresses args gw now).2.1 =
        [⟨js "/latest/dex/tokens/" ++ buildAddresses v, []⟩]) := by
  refine ⟨buildAddresses_nil_iff v, ?_, ?_⟩
  · intro h0
    unfold invoke
    rw [hv]
    dsimp only
    rw [if_pos h0]
    exact ⟨rfl, rfl, rfl⟩
  · intro hne
    unfold invoke
    rw [hv]
    dsimp only
    rw [if_neg hne]
    exact fetchWithRateLimit_calls env _ gw.dexRL [] now

theorem get_pairs_by_token_addresses_drops_empty_witness :
    ((invoke envConst .get_pairs_by_token_addresses
      [(js "tokenAddresses", .str (js " , ,, "))] initGateway 0).2.1 = [] ∧
     (invoke envConst .get_pairs_by_token_addresses
      [(js "tokenAddresses", .str (js " , ,, "))] initGateway 0).1 = initGateway) ∧
    (invoke envConst .get_pairs_by_token_addresses
      [(js "tokenAddresses", .str
        (js "a,a,a,a,a,a,a,a,a,a,a,a,a,a,a,a,a,a,a,a,a,a,a,a,a,a,a,a,a,a,a"))]
      initGateway 0).2.1 =
      [⟨js "/latest/dex/tokens/a,a,a,a,a,a,a,a,a,a,a,a,a,a,a,a,a,a,a,a,a,a,a,a,a,a,a,a,a,a,a",
        []⟩] := by
  have h1 := get_pairs_by_token_addresses_drops_empty envConst
    [(js "tokenAddresses", .str (js " , ,, "))] initGateway 0 (js ", ,,") rfl
  have h2 := get_pairs_by_token_addresses_drops_empty envConst
    [(js "tokenAddresses", .str
      (js "a,a,a,a,a,a,a,a,a,a,a,a,a,a,a,a,a,a,a,a,a,a,a,a,a,a,a,a,a,a,a"))]
    initGateway 0
    (js "a,a,a,a,a,a,a,a,a,a,a,a,a,a,a,a,a,a,a,a,a,a,a,a,a,a,a,a,a,a,a") rfl
  refine ⟨⟨(h1.2.1 (by decide)).2.1, (h1.2.1 (by decide)).1⟩, ?_⟩
  have h3 := h2.2.2 (by decide)
  rw [h3]
  decide
